import Mathlib

/-!
Shallow embedding of the `sentry` metrics core (files `metrics.go` and the
unnamed sibling file, here called `Part000`), together with proofs about the
claims of the specification.

Modelling conventions:
* Go `float64` is modelled exactly by `Rat`.  Every value that the claims
  exercise is a small dyadic rational, where `float64` arithmetic (`+`,
  `math.Min`, `math.Max`) is exact, so the rational model agrees with the
  source.  NaN/Inf are outside the modelled domain.  The arithmetic is
  implemented through `mkRat` so that every operation reduces inside the
  kernel.
* Go `fmt.Sprintf("%v", x)` on a `float64` prints the shortest decimal string
  that round-trips (`strconv.FormatFloat(x, 'g', -1, 64)`); on the plain
  (non-exponent) range this is the terminating decimal expansion without
  trailing zeros, which `sprintfV` below computes for a rational.
* Go maps are modelled by association lists (`map[string]string`) or by
  duplicate-free element lists (`map[int]void`, `map[T]void`); a map is its
  key set plus lookup, and all serialization in the source sorts the keys
  before rendering, so list order never leaks into any modelled output.
* A failing Go type assertion `value.(float64)` panics; `Add` is therefore
  modelled as returning `Except GoPanic _`, where `GoPanic.typeAssertion`
  stands for the runtime `*runtime.TypeAssertionError` panic.
* Go regexps `re.ReplaceAllString(s, rep)` for the patterns `[^X]+` used in
  the source replace every maximal run of characters outside the class `X`
  by `rep`; `replaceDisallowedRuns` implements exactly that.  All the classes
  in the source are ASCII-only (RE2 `\w` = `[0-9A-Za-z_]`,
  `\s` = `[\t\n\f\r ]`, `\d` = `[0-9]` without a Unicode flag).
* Go string comparison (`<` on `string`) is byte-wise lexicographic over the
  UTF-8 encoding, which coincides with code-point-wise lexicographic order;
  `strLe` implements it on `String.data`.
-/

/-! ### The float64 value model -/

/-- Model of Go `float64`: an exact rational. -/
abbrev float64 := Rat

/-- Model of `float64` addition (`x + y`), exact on the modelled domain.
Implemented via `mkRat` so that it reduces in the kernel. -/
def fadd (a b : float64) : float64 :=
  mkRat (a.num * (b.den : Int) + b.num * (a.den : Int)) (a.den * b.den)

/-- Model of `float64` negation. -/
def fneg (a : float64) : float64 := mkRat (-a.num) a.den

/-- Model of the `float64` order `a <= b` (total on the modelled domain,
which contains no NaN). -/
def fle (a b : float64) : Bool := a.num * (b.den : Int) ≤ b.num * (a.den : Int)

/-- Model of Go `math.Min` (NaN cases are outside the modelled domain). -/
def mathMin (a b : float64) : float64 := if fle a b then a else b

/-- Model of Go `math.Max` (NaN cases are outside the modelled domain). -/
def mathMax (a b : float64) : float64 := if fle a b then b else a

/-- Auxiliary for `sprintfV`: print a nonnegative rational with a terminating
decimal expansion as its shortest plain decimal string. -/
def sprintfVNonneg (q : float64) : String :=
  if q.den = 1 then toString q.num
  else
    match (List.range 25).find? (fun k => (mkRat (q.num * ((10 ^ k : Nat) : Int)) q.den).den == 1) with
    | some k =>
      let n := (mkRat (q.num * ((10 ^ k : Nat) : Int)) q.den).num.toNat
      let fs := toString (n % 10 ^ k)
      toString (n / 10 ^ k) ++ "." ++ String.mk (List.replicate (k - fs.length) '0') ++ fs
    | none => toString q

/-- Model of Go `fmt.Sprintf("%v", x)` for a `float64` `x`: the shortest
round-trip decimal rendering, in plain (non-exponent) notation.  All floats
rendered in this development lie well inside the range where Go uses plain
notation. -/
def sprintfV (q : float64) : String :=
  if q.num < 0 then "-" ++ sprintfVNonneg (fneg q) else sprintfVNonneg q

/-! ### Go string order (byte-wise lexicographic) -/

/-- Lexicographic order on code-point lists; this is exactly Go's `<=` on
strings (UTF-8 byte order coincides with code-point order). -/
def charListLe : List Char → List Char → Bool
  | [], _ => true
  | _ :: _, [] => false
  | a :: as, b :: bs =>
    if a.toNat < b.toNat then true
    else if b.toNat < a.toNat then false
    else charListLe as bs

/-- Go's `a <= b` on strings, as a proposition. -/
def strLe (a b : String) : Prop := charListLe a.data b.data = true

instance : DecidableRel strLe := fun a b =>
  inferInstanceAs (Decidable (charListLe a.data b.data = true))

/-- Go's sort on a string slice (`sortSlice` in `metrics.go`, `slices.Sort`
in the sibling file): ascending order.  Modelled by insertion sort; on the
duplicate-free key lists that arise from Go maps every correct ascending
sort produces this result. -/
def sortStrings (l : List String) : List String := List.insertionSort strLe l

/-- Go's ascending sort on an `int` slice. -/
def sortInts (l : List Int) : List Int := List.insertionSort (· ≤ ·) l

/-! ### Sanitizers (`sanitizeKey`, `sanitizeValue`, the unit regexp) -/

/-- Membership in RE2 `\w` (no Unicode flag): `[0-9A-Za-z_]`. -/
def isWordChar (c : Char) : Bool :=
  ('0'.toNat ≤ c.toNat && c.toNat ≤ '9'.toNat) ||
  ('A'.toNat ≤ c.toNat && c.toNat ≤ 'Z'.toNat) ||
  ('a'.toNat ≤ c.toNat && c.toNat ≤ 'z'.toNat) ||
  c = '_'

/-- Membership in RE2 `\d`: `[0-9]`. -/
def isAsciiDigit (c : Char) : Bool :=
  '0'.toNat ≤ c.toNat && c.toNat ≤ '9'.toNat

/-- Membership in RE2 `\s`: `[\t\n\f\r ]`. -/
def isRE2Space (c : Char) : Bool :=
  c = '\t' || c = '\n' || c = '\x0c' || c = '\r' || c = ' '

/-- The character class of `keyRegex = [^a-zA-Z0-9_/.-]+`: a character the
key regexp does NOT match, i.e. one that is kept. -/
def keyAllowed (c : Char) : Bool :=
  ('a'.toNat ≤ c.toNat && c.toNat ≤ 'z'.toNat) ||
  ('A'.toNat ≤ c.toNat && c.toNat ≤ 'Z'.toNat) ||
  ('0'.toNat ≤ c.toNat && c.toNat ≤ '9'.toNat) ||
  c = '_' || c = '/' || c = '.' || c = '-'

/-- The punctuation literals shared by both value regexps:
`_ : / @ . \x7b \x7d [ ] $ -`. -/
def valuePunct (c : Char) : Bool :=
  c = '_' || c = ':' || c = '/' || c = '@' || c = '.' ||
  c = '\x7b' || c = '\x7d' || c = '[' || c = ']' || c = '$' || c = '-'

/-- The character class kept by `metrics.go`'s
`valueRegex = [^\w\d\s_:/@\.\x7b\x7d\[\]$-]+`. -/
def valueAllowed (c : Char) : Bool :=
  isWordChar c || isAsciiDigit c || isRE2Space c || valuePunct c

/-- The character class kept by the `[a-z]`-only `unitRegex = [^a-z]+`. -/
def unitAllowed (c : Char) : Bool :=
  'a'.toNat ≤ c.toNat && c.toNat ≤ 'z'.toNat

/-- Model of `re.ReplaceAllString(s, rep)` for a pattern of the shape
`[^X]+` (`allowed` decides membership in `X`): every maximal run of
disallowed characters is replaced by `rep`.  The boolean argument records
whether the previous character was part of a disallowed run. -/
def replaceDisallowedRuns (allowed : Char → Bool) (rep : List Char) :
    List Char → Bool → List Char
  | [], _ => []
  | c :: cs, inRun =>
    if allowed c then c :: replaceDisallowedRuns allowed rep cs false
    else if inRun then replaceDisallowedRuns allowed rep cs true
    else rep ++ replaceDisallowedRuns allowed rep cs true

/-- Model of `regexp.ReplaceAllString` on a whole string, for `[^X]+`
patterns. -/
def replaceAllString (allowed : Char → Bool) (rep : String) (s : String) : String :=
  String.mk (replaceDisallowedRuns allowed rep.data s.data false)

/-- `metrics.go` / `Part000` `sanitizeKey`: replace every run outside
`[a-zA-Z0-9_/.-]` by one underscore (both files use the same pattern and
replacement). -/
def sanitizeKey (s : String) : String := replaceAllString keyAllowed "_" s

/-- `metrics.go` `sanitizeValue`: delete every run outside
`[\w\d\s_:/@\.\x7b\x7d\[\]$-]` (empty replacement). -/
def sanitizeValue (s : String) : String := replaceAllString valueAllowed "" s

namespace Part000

/-- The character class kept by the sibling file's
`[^\w\d_:/@\.\x7b\x7d\[\]$-]+` (no `\s`). -/
def valueAllowed (c : Char) : Bool :=
  isWordChar c || isAsciiDigit c || valuePunct c

/-- The sibling file's `sanitizeValue`: replace every run outside its class
by one underscore. -/
def sanitizeValue (s : String) : String :=
  replaceAllString Part000.valueAllowed "_" s

end Part000

/-! ### Units -/

/-- `MetricUnit` of `metrics.go`: a carrier for the unit name. -/
structure MetricUnit where
  unit : String
deriving DecidableEq

/-- `MetricUnit.toString` returns the stored unit string. -/
def MetricUnit.toString (m : MetricUnit) : String := m.unit

/-- The `Second()` builtin unit (one representative of the enumerated
constructors, each of which just stores its fixed lowercase name). -/
def Second : MetricUnit := ⟨"second"⟩

/-- `CustomUnit`: strip every character outside `[a-z]` (empty replacement
on `unitRegex`) and store the result. -/
def CustomUnit (unit : String) : MetricUnit :=
  ⟨replaceAllString unitAllowed "" unit⟩

/-! ### CRC-32 (IEEE) for string set members -/

/-- One bit step of the reflected CRC-32 with the IEEE polynomial
(`0xEDB88320`). -/
def crcStep (c : Nat) : Nat :=
  if c % 2 = 1 then (c / 2) ^^^ 0xEDB88320 else c / 2

/-- Absorb one byte into the CRC state. -/
def crcByte (c b : Nat) : Nat := crcStep^[8] (c ^^^ (b % 256))

/-- `crc32.ChecksumIEEE` over a byte sequence: reflected CRC-32/ISO-HDLC
(initial value and final xor `0xFFFFFFFF`). -/
def crc32ChecksumIEEE (bs : List Nat) : Nat :=
  (bs.foldl crcByte 0xFFFFFFFF) ^^^ 0xFFFFFFFF

/-- UTF-8 bytes of a string (`[]byte(s)` in Go). -/
def utf8Bytes (s : String) : List Nat :=
  (s.data.flatMap String.utf8EncodeChar).map UInt8.toNat

/-- `setStringKeyToInt` / the `_hash` closure of the sibling file:
`crc32.ChecksumIEEE([]byte(s))`. -/
def setStringKeyToInt (s : String) : Nat := crc32ChecksumIEEE (utf8Bytes s)

/-! ### The metric variants -/

/-- A Go `interface\x7b\x7d` argument as passed to `Add` in `metrics.go`:
one of the dynamic types the code inspects. -/
inductive GoValue where
  | float (v : float64)
  | int (n : Int)
  | str (s : String)
deriving DecidableEq

/-- A modelled Go runtime panic: the failure of a type assertion
`value.(float64)` / `value.(int)`. -/
inductive GoPanic where
  | typeAssertion
deriving DecidableEq

instance {ε α : Type} [DecidableEq ε] [DecidableEq α] : DecidableEq (Except ε α) := fun x y =>
  match x, y with
  | .ok a, .ok b =>
    if h : a = b then .isTrue (by rw [h]) else .isFalse (fun c => h (Except.ok.inj c))
  | .error a, .error b =>
    if h : a = b then .isTrue (by rw [h]) else .isFalse (fun c => h (Except.error.inj c))
  | .ok _, .error _ => .isFalse (fun c => Except.noConfusion c)
  | .error _, .ok _ => .isFalse (fun c => Except.noConfusion c)

/-- The shared identity of every metric (`abstractMetric`). -/
structure abstractMetric where
  key : String
  unit : MetricUnit
  tags : List (String × String)
  timestamp : Int
deriving DecidableEq

/-- Go map lookup `tags[key]` on the association-list model (a missing key
yields the zero value `""`; on the duplicate-free lists that model Go maps
the first match is the only match). -/
def mapGet (tags : List (String × String)) (key : String) : String :=
  match tags with
  | [] => ""
  | (k, v) :: rest => if key = k then v else mapGet rest key

/-- One entry of `serializeTags`' output before the comma separator is
attached: `sanitizeKey(key):sanitizeValue(tags[key])`, exactly the string
written by the loop body in the source. -/
def tagEntry (tags : List (String × String)) (k : String) : String :=
  sanitizeKey k ++ ":" ++ sanitizeValue (mapGet tags k)

/-- `serializeTags` of `metrics.go`: collect the keys, sort them ascending,
emit `sanitizedKey:sanitizedValue,` for each, then cut the final comma
(`s[:len(s)-1]`; the last byte is always the one-byte `,`, so dropping the
final character is the same operation). -/
def serializeTags (tags : List (String × String)) : String :=
  let values := sortStrings (tags.map Prod.fst)
  let s := values.foldl (fun sb key => sb ++ (tagEntry tags key ++ ",")) ""
  if 0 < s.length then String.mk s.data.dropLast else s

/-- `CounterMetric`: a running sum. -/
structure CounterMetric where
  value : float64
  am : abstractMetric
deriving DecidableEq

/-- `CounterMetric.Add`: assert `float64`, then `c.value += v`. -/
def CounterMetric.Add (c : CounterMetric) (value : GoValue) :
    Except GoPanic CounterMetric :=
  match value with
  | .float v => .ok { c with value := fadd c.value v }
  | _ => .error .typeAssertion

def CounterMetric.GetType (_ : CounterMetric) : String := "c"

def CounterMetric.GetKey (c : CounterMetric) : String := c.am.key

def CounterMetric.GetUnit (c : CounterMetric) : String := c.am.unit.toString

def CounterMetric.GetTags (c : CounterMetric) : List (String × String) := c.am.tags

def CounterMetric.GetTimestamp (c : CounterMetric) : Int := c.am.timestamp

/-- `CounterMetric.SerializeValue`: `fmt.Sprintf(":%v", c.value)`. -/
def CounterMetric.SerializeValue (c : CounterMetric) : String :=
  ":" ++ sprintfV c.value

/-- `NewCounterMetric`. -/
def NewCounterMetric (key : String) (unit : MetricUnit)
    (tags : List (String × String)) (timestamp : Int) (value : float64) :
    CounterMetric :=
  { value := value, am := ⟨key, unit, tags, timestamp⟩ }

/-- `DistributionMetric`: an append-only list of observations. -/
structure DistributionMetric where
  values : List float64
  am : abstractMetric
deriving DecidableEq

/-- `DistributionMetric.Add`: assert `float64`, then append. -/
def DistributionMetric.Add (d : DistributionMetric) (value : GoValue) :
    Except GoPanic DistributionMetric :=
  match value with
  | .float v => .ok { d with values := d.values ++ [v] }
  | _ => .error .typeAssertion

def DistributionMetric.GetType (_ : DistributionMetric) : String := "d"

def DistributionMetric.GetKey (d : DistributionMetric) : String := d.am.key

def DistributionMetric.GetUnit (d : DistributionMetric) : String := d.am.unit.toString

def DistributionMetric.GetTags (d : DistributionMetric) : List (String × String) := d.am.tags

def DistributionMetric.GetTimestamp (d : DistributionMetric) : Int := d.am.timestamp

/-- `DistributionMetric.SerializeValue`: `:%v` per element, insertion
order. -/
def DistributionMetric.SerializeValue (d : DistributionMetric) : String :=
  d.values.foldl (fun sb el => sb ++ (":" ++ sprintfV el)) ""

/-- `NewDistributionMetric`. -/
def NewDistributionMetric (key : String) (unit : MetricUnit)
    (tags : List (String × String)) (timestamp : Int) (value : float64) :
    DistributionMetric :=
  { values := [value], am := ⟨key, unit, tags, timestamp⟩ }

/-- `GaugeMetric`: running last/min/max/sum/count statistics. -/
structure GaugeMetric where
  last : float64
  min : float64
  max : float64
  sum : float64
  count : float64
  am : abstractMetric
deriving DecidableEq

/-- `GaugeMetric.Add`: assert `float64`, then update the five fields
(`last=v`, `min=math.Min(min,v)`, `max=math.Max(max,v)`, `sum+=v`,
`count++`). -/
def GaugeMetric.Add (g : GaugeMetric) (value : GoValue) :
    Except GoPanic GaugeMetric :=
  match value with
  | .float v =>
    .ok { g with
      last := v
      min := mathMin g.min v
      max := mathMax g.max v
      sum := fadd g.sum v
      count := fadd g.count (mkRat 1 1) }
  | _ => .error .typeAssertion

def GaugeMetric.GetType (_ : GaugeMetric) : String := "g"

def GaugeMetric.GetKey (g : GaugeMetric) : String := g.am.key

def GaugeMetric.GetUnit (g : GaugeMetric) : String := g.am.unit.toString

def GaugeMetric.GetTags (g : GaugeMetric) : List (String × String) := g.am.tags

def GaugeMetric.GetTimestamp (g : GaugeMetric) : Int := g.am.timestamp

/-- `GaugeMetric.SerializeValue`:
`fmt.Sprintf(":%v:%v:%v:%v:%v", last, min, max, sum, count)`. -/
def GaugeMetric.SerializeValue (g : GaugeMetric) : String :=
  ":" ++ sprintfV g.last ++ ":" ++ sprintfV g.min ++ ":" ++ sprintfV g.max ++
  ":" ++ sprintfV g.sum ++ ":" ++ sprintfV g.count

/-- `NewGaugeMetric`.  Note that the source initializes ALL five fields,
`count` included, to the initial observation `value`. -/
def NewGaugeMetric (key : String) (unit : MetricUnit)
    (tags : List (String × String)) (timestamp : Int) (value : float64) :
    GaugeMetric :=
  { last := value, min := value, max := value, sum := value, count := value
    am := ⟨key, unit, tags, timestamp⟩ }

/-- `SetMetric` of `metrics.go`: the key set of the Go `map[int]void`,
modelled as a duplicate-free list of the distinct inserted elements. -/
structure SetMetric where
  values : List Int
  am : abstractMetric
deriving DecidableEq

/-- `SetMetric.Add`: assert `int`, then `s.values[v] = member` — the key set
gains `v`, and is unchanged when `v` is already present. -/
def SetMetric.Add (s : SetMetric) (value : GoValue) :
    Except GoPanic SetMetric :=
  match value with
  | .int v => .ok (if v ∈ s.values then s else { s with values := s.values ++ [v] })
  | _ => .error .typeAssertion

def SetMetric.GetType (_ : SetMetric) : String := "s"

def SetMetric.GetKey (s : SetMetric) : String := s.am.key

def SetMetric.GetUnit (s : SetMetric) : String := s.am.unit.toString

def SetMetric.GetTags (s : SetMetric) : List (String × String) := s.am.tags

def SetMetric.GetTimestamp (s : SetMetric) : Int := s.am.timestamp

/-- `SetMetric.SerializeValue`: collect the elements, sort ascending,
render `:%v` per element. -/
def SetMetric.SerializeValue (s : SetMetric) : String :=
  let values := sortInts s.values
  values.foldl (fun sb el => sb ++ (":" ++ ToString.toString el)) ""

/-- `NewSetMetric` (`metrics.go` stores `map[int]void\x7bvalue: member\x7d`). -/
def NewSetMetric (key : String) (unit : MetricUnit)
    (tags : List (String × String)) (timestamp : Int) (value : Int) :
    SetMetric :=
  { values := [value], am := ⟨key, unit, tags, timestamp⟩ }

namespace Part000

/-- The sibling file's generic `SetMetric[T]` instantiated at `T = string`:
the key set of `map[string]void`. -/
structure SetMetricString where
  values : List String
  am : abstractMetric
deriving DecidableEq

/-- `SetMetric[string].Add` (statically typed in the sibling file):
`s.values[value] = member`. -/
def SetMetricString.Add (s : SetMetricString) (value : String) : SetMetricString :=
  if value ∈ s.values then s else { s with values := s.values ++ [value] }

/-- `SetMetric[string].SerializeValue`: collect the elements, `slices.Sort`
them (ascending on the original strings), then render each as
`fmt.Sprintf(":%d", crc32.ChecksumIEEE([]byte(el)))`. -/
def SetMetricString.SerializeValue (s : SetMetricString) : String :=
  let values := sortStrings s.values
  values.foldl (fun sb el => sb ++ (":" ++ ToString.toString (setStringKeyToInt el))) ""

/-- `NewSetMetric[string]`. -/
def NewSetMetricString (key : String) (unit : MetricUnit)
    (tags : List (String × String)) (timestamp : Int) (value : String) :
    SetMetricString :=
  { values := [value], am := ⟨key, unit, tags, timestamp⟩ }

/-- The sibling file's `CounterMetric`: a running sum, like `metrics.go`'s. -/
structure CounterMetric where
  value : float64
  am : abstractMetric
deriving DecidableEq

/-- The sibling file's `CounterMetric.Add` is statically typed
(`Add(value float64)`), so it is total: `c.value += value`. -/
def CounterMetric.Add (c : CounterMetric) (value : float64) : CounterMetric :=
  { c with value := fadd c.value value }

/-- The sibling file's `CounterMetric.SerializeValue`:
`fmt.Sprintf("%v", c.value)` — unlike `metrics.go`'s, it emits NO leading
colon. -/
def CounterMetric.SerializeValue (c : CounterMetric) : String :=
  sprintfV c.value

/-- The sibling file's `NewCounterMetric`. -/
def NewCounterMetric (key : String) (unit : MetricUnit)
    (tags : List (String × String)) (timestamp : Int) (value : float64) :
    CounterMetric :=
  { value := value, am := ⟨key, unit, tags, timestamp⟩ }

end Part000

/-! ### Specification-side helper shapes -/

/-- Entries of a list joined by commas with no trailing comma (the shape the
tag-serialization spec describes). -/
def commaJoin : List String → String
  | [] => ""
  | [x] => x
  | x :: y :: rest => x ++ "," ++ commaJoin (y :: rest)

/-- Entries of a list, each followed by a comma, concatenated (the string
the builder loop of `serializeTags` produces before the final comma is
cut). -/
def preJoin (g : String → String) : List String → String
  | [] => ""
  | k :: ks => g k ++ "," ++ preJoin g ks

/-- Plain concatenation of a list of strings. -/
def concatAll : List String → String
  | [] => ""
  | x :: xs => x ++ concatAll xs

/-- A fixed sample identity used by the concrete witness statements. -/
def am0 : abstractMetric := ⟨"response.time", Second, [("route", "home")], 1700000000⟩

/-! ### Order facts about the Go string order -/

theorem charListLe_total : ∀ as bs, charListLe as bs = true ∨ charListLe bs as = true := by
  intro as
  induction as with
  | nil => intro bs; left; rfl
  | cons a as ih =>
    intro bs
    cases bs with
    | nil => right; rfl
    | cons b bs =>
      by_cases h1 : a.toNat < b.toNat
      · left; simp [charListLe, h1]
      · by_cases h2 : b.toNat < a.toNat
        · right; simp [charListLe, h1, h2]
        · have h3 : ¬ b.toNat < a.toNat := h2
          rcases ih bs with h | h
          · left; simp [charListLe, h1, h2, h]
          · right; simp [charListLe, h1, h3, h]

theorem charListLe_trans :
    ∀ as bs cs, charListLe as bs = true → charListLe bs cs = true →
      charListLe as cs = true := by
  intro as
  induction as with
  | nil => intro bs cs _ _; rfl
  | cons a as ih =>
    intro bs cs hab hbc
    cases bs with
    | nil => simp [charListLe] at hab
    | cons b bs =>
      cases cs with
      | nil => simp [charListLe] at hbc
      | cons c cs =>
        simp only [charListLe] at hab hbc ⊢
        split at hab
        · rename_i h1
          split at hbc
          · rename_i h2
            simp [show a.toNat < c.toNat by omega]
          · split at hbc
            · simp at hbc
            · rename_i h2 h3
              simp [show a.toNat < c.toNat by omega]
        · split at hab
          · simp at hab
          · rename_i h1 h2
            split at hbc
            · rename_i h3
              simp [show a.toNat < c.toNat by omega]
            · split at hbc
              · simp at hbc
              · rename_i h3 h4
                have : ¬ a.toNat < c.toNat := by omega
                have : ¬ c.toNat < a.toNat := by omega
                simp [*]
                exact ih bs cs hab hbc

theorem charListLe_antisymm :
    ∀ as bs, charListLe as bs = true → charListLe bs as = true → as = bs := by
  intro as
  induction as with
  | nil =>
    intro bs _ hba
    cases bs with
    | nil => rfl
    | cons b bs => simp [charListLe] at hba
  | cons a as ih =>
    intro bs hab hba
    cases bs with
    | nil => simp [charListLe] at hab
    | cons b bs =>
      simp only [charListLe] at hab hba
      split at hab
      · rename_i h1
        rw [if_neg (by omega), if_pos h1] at hba
        simp at hba
      · split at hab
        · simp at hab
        · rename_i h1 h2
          rw [if_neg (by omega), if_neg (by omega)] at hba
          have hchar : a = b := by
            have hn : a.toNat = b.toNat := by omega
            exact Char.eq_of_val_eq (UInt32.ext hn)
          rw [hchar, ih bs hab hba]

instance : IsTotal String strLe := ⟨fun a b => by
  unfold strLe; exact charListLe_total a.data b.data⟩

instance : IsTrans String strLe := ⟨fun a b c hab hbc => by
  unfold strLe at *; exact charListLe_trans a.data b.data c.data hab hbc⟩

instance : IsAntisymm String strLe := ⟨fun a b hab hba => by
  unfold strLe at *
  cases a with
  | mk da =>
    cases b with
    | mk db => exact congrArg String.mk (charListLe_antisymm da db hab hba)⟩

/-! ### Facts about run replacement (the `[^X]+` regexps) -/

theorem mem_replaceDisallowedRuns (allowed : Char → Bool) (rep : List Char)
    (hrep : ∀ c ∈ rep, allowed c = true) :
    ∀ (l : List Char) (b : Bool) (c : Char),
      c ∈ replaceDisallowedRuns allowed rep l b → allowed c = true := by
  intro l
  induction l with
  | nil => intro b c h; simp [replaceDisallowedRuns] at h
  | cons a as ih =>
    intro b c h
    by_cases ha : allowed a
    · rw [replaceDisallowedRuns, if_pos ha] at h
      rcases List.mem_cons.mp h with rfl | h
      · exact ha
      · exact ih false c h
    · rw [replaceDisallowedRuns, if_neg ha] at h
      cases b with
      | true => rw [if_pos rfl] at h; exact ih true c h
      | false =>
        rw [if_neg (by simp)] at h
        rcases List.mem_append.mp h with h | h
        · exact hrep c h
        · exact ih true c h

theorem replaceDisallowedRuns_id (allowed : Char → Bool) (rep : List Char) :
    ∀ (l : List Char), (∀ c ∈ l, allowed c = true) →
      ∀ b, replaceDisallowedRuns allowed rep l b = l := by
  intro l
  induction l with
  | nil => intro _ b; rfl
  | cons a as ih =>
    intro hall b
    have ha : allowed a = true := hall a (List.mem_cons_self a as)
    rw [replaceDisallowedRuns, if_pos ha,
      ih (fun c hc => hall c (List.mem_cons_of_mem a hc)) false]

theorem replaceDisallowedRuns_nil_rep (allowed : Char → Bool) :
    ∀ (l : List Char) (b : Bool),
      replaceDisallowedRuns allowed [] l b = l.filter allowed := by
  intro l
  induction l with
  | nil => intro b; rfl
  | cons a as ih =>
    intro b
    by_cases ha : allowed a
    · rw [replaceDisallowedRuns, if_pos ha, List.filter_cons_of_pos ha, ih false]
    · rw [replaceDisallowedRuns, if_neg ha, List.filter_cons_of_neg (by simp [ha])]
      cases b with
      | true => rw [if_pos rfl, ih true]
      | false => rw [if_neg (by simp), List.nil_append, ih true]

theorem replaceAllString_idem (allowed : Char → Bool) (rep : String)
    (hrep : ∀ c ∈ rep.data, allowed c = true) (s : String) :
    replaceAllString allowed rep (replaceAllString allowed rep s) =
      replaceAllString allowed rep s := by
  unfold replaceAllString
  exact congrArg String.mk (replaceDisallowedRuns_id allowed rep.data _
    (fun c hc => mem_replaceDisallowedRuns allowed rep.data hrep s.data false c hc) false)

/-! ### Facts about the string-builder loops -/

theorem foldl_entry_append (g : String → String) :
    ∀ (l : List String) (init : String),
      l.foldl (fun sb k => sb ++ (g k ++ ",")) init = init ++ preJoin g l := by
  intro l
  induction l with
  | nil => intro init; simp [preJoin, String.append_empty]
  | cons k ks ih =>
    intro init
    rw [List.foldl_cons, ih, preJoin, String.append_assoc, String.append_assoc]

theorem foldl_concat {α : Type} (g : α → String) :
    ∀ (l : List α) (init : String),
      l.foldl (fun sb el => sb ++ g el) init = init ++ concatAll (l.map g) := by
  intro l
  induction l with
  | nil => intro init; simp [concatAll, String.append_empty]
  | cons k ks ih =>
    intro init
    rw [List.map_cons, List.foldl_cons, ih, concatAll, String.append_assoc]

theorem preJoin_data_ne_nil (g : String → String) (k : String) (ks : List String) :
    (preJoin g (k :: ks)).data ≠ [] := by
  show ((g k ++ ",") ++ preJoin g ks).data ≠ []
  show ((g k).data ++ [','] ++ (preJoin g ks).data) ≠ []
  simp

theorem chop_preJoin (g : String → String) :
    ∀ (ks : List String) (k : String),
      String.mk (preJoin g (k :: ks)).data.dropLast = commaJoin ((k :: ks).map g) := by
  intro ks
  induction ks with
  | nil =>
    intro k
    show String.mk (((g k).data ++ [','] ++ []).dropLast) = g k
    rw [List.append_nil, List.dropLast_concat]
  | cons k2 ks ih =>
    intro k
    show String.mk (((g k).data ++ [','] ++ (preJoin g (k2 :: ks)).data).dropLast)
      = g k ++ "," ++ commaJoin (g k2 :: (ks.map g))
    rw [List.dropLast_append_of_ne_nil _ (preJoin_data_ne_nil g k2 ks)]
    have : String.mk ((g k).data ++ [','] ++ (preJoin g (k2 :: ks)).data.dropLast)
        = (g k ++ ",") ++ String.mk (preJoin g (k2 :: ks)).data.dropLast := rfl
    rw [this, ih k2]
    rfl

theorem serializeTags_eq_commaJoin (tags : List (String × String)) :
    serializeTags tags
      = commaJoin ((sortStrings (tags.map Prod.fst)).map (tagEntry tags)) := by
  unfold serializeTags
  cases h : sortStrings (tags.map Prod.fst) with
  | nil => simp [h, commaJoin]
  | cons k ks =>
    simp only [h]
    rw [foldl_entry_append (tagEntry tags) (k :: ks) ""]
    have hne : (preJoin (tagEntry tags) (k :: ks)).data ≠ [] :=
      preJoin_data_ne_nil _ k ks
    have hlen : 0 < ("" ++ preJoin (tagEntry tags) (k :: ks)).length := by
      show 0 < ([] ++ (preJoin (tagEntry tags) (k :: ks)).data).length
      rw [List.nil_append]
      exact List.length_pos.mpr hne
    rw [if_pos hlen]
    have : ("" ++ preJoin (tagEntry tags) (k :: ks)).data
        = (preJoin (tagEntry tags) (k :: ks)).data := by
      show [] ++ (preJoin (tagEntry tags) (k :: ks)).data = _
      rw [List.nil_append]
    rw [this, chop_preJoin]

/-! ### Facts about map lookup and sorting under permutation -/

theorem mapGet_perm {t1 t2 : List (String × String)} (h : t1.Perm t2)
    (nd : (t1.map Prod.fst).Nodup) (k : String) : mapGet t1 k = mapGet t2 k := by
  induction h with
  | nil => rfl
  | cons a h ih =>
    rename_i l1 l2
    cases a with
    | mk ka va =>
      have ndt : (l1.map Prod.fst).Nodup := by
        simp only [List.map_cons, List.nodup_cons] at nd
        exact nd.2
      show (if k = ka then va else mapGet l1 k) = (if k = ka then va else mapGet l2 k)
      by_cases hk : k = ka
      · rw [if_pos hk, if_pos hk]
      · rw [if_neg hk, if_neg hk, ih ndt]
  | swap x y l =>
    cases x with
    | mk kx vx =>
      cases y with
      | mk ky vy =>
        have hxy : ky ≠ kx := by
          simp only [List.map_cons, List.nodup_cons, List.mem_cons] at nd
          exact fun e => nd.1 (Or.inl e)
        show (if k = ky then vy else if k = kx then vx else mapGet l k)
          = (if k = kx then vx else if k = ky then vy else mapGet l k)
        by_cases h1 : k = ky
        · rw [if_pos h1, if_neg (h1 ▸ fun e => hxy e), if_pos h1]
        · by_cases h2 : k = kx
          · rw [if_neg h1, if_pos h2, if_pos h2]
          · rw [if_neg h1, if_neg h2, if_neg h2, if_neg h1]
  | trans h1 h2 ih1 ih2 =>
    rename_i l1 l2 l3
    have nd2 : (l2.map Prod.fst).Nodup := ((h1.map Prod.fst).nodup_iff).mp nd
    rw [ih1 nd, ih2 nd2]

theorem sortStrings_perm_eq {l1 l2 : List String} (h : l1.Perm l2) :
    sortStrings l1 = sortStrings l2 := by
  apply List.eq_of_perm_of_sorted (r := strLe)
  · exact (List.perm_insertionSort strLe l1).trans
      (h.trans (List.perm_insertionSort strLe l2).symm)
  · exact List.sorted_insertionSort strLe l1
  · exact List.sorted_insertionSort strLe l2

theorem serializeTags_perm_invariant {t1 t2 : List (String × String)} (h : t1.Perm t2)
    (nd : (t1.map Prod.fst).Nodup) : serializeTags t1 = serializeTags t2 := by
  have hkeys : sortStrings (t1.map Prod.fst) = sortStrings (t2.map Prod.fst) :=
    sortStrings_perm_eq (h.map Prod.fst)
  have hentry : tagEntry t1 = tagEntry t2 := by
    funext k
    unfold tagEntry
    rw [mapGet_perm h nd k]
  unfold serializeTags
  rw [hkeys, hentry]

/-! ### The claims -/

/-- C1: the spec's Gauge test vector.  A Gauge constructed with `5.0`, then
`Add(1.0)`, then `Add(9.0)`, evaluated on the code: because `NewGaugeMetric`
initializes the `count` field to the first observation's VALUE (not to 1),
the state is last=9, min=1, max=9, sum=15 but count=5+1+1=7, and
`SerializeValue()` returns `":9:1:9:15:7"` — not the `":9:1:9:15:3"` with
count=3 that the claim (and the `count+=1` counting semantics of `Add`)
demands. -/
theorem gauge_count_starts_at_first_value :
    (((NewGaugeMetric "some.metric" Second [] 1700000000 (mkRat 5 1)).Add
        (.float (mkRat 1 1))).bind
      (fun g => g.Add (.float (mkRat 9 1)))).map
        (fun g => (g.SerializeValue, g.last, g.min, g.max, g.sum, g.count))
      = .ok (":9:1:9:15:7", mkRat 9 1, mkRat 1 1, mkRat 9 1, mkRat 15 1, mkRat 7 1) := by
  decide

/-- C2 counterexample: `serializeTags` sorts the RAW keys and only then
sanitizes them, so the output need not be ascending in the SANITIZED keys.
For the mapping `("!" : "x", "A" : "y")` the raw order puts `"!"` first, but
its sanitized key `"_"` is strictly greater than `"A"`: the output
`"_:x,A:y"` violates ascending sanitized-key order. -/
theorem serializeTags_sanitized_order_counterexample :
    serializeTags [("!", "x"), ("A", "y")] = "_:x,A:y" ∧
    sanitizeKey "!" = "_" ∧ sanitizeKey "A" = "A" ∧
    ¬ strLe (sanitizeKey "!") (sanitizeKey "A") ∧
    strLe "!" "A" := by
  refine ⟨by decide, by decide, by decide, by decide, by decide⟩

/-- C2 (amended): `serializeTags` produces the entries
`sanitizeKey(k):sanitizeValue(tags[k])` joined by commas with no trailing
comma, with the entries ordered ascending by the RAW key (each key is
sanitized only after sorting); two mappings with the same contents in any
insertion order serialize identically, and the empty mapping serializes to
the empty string. -/
theorem serializeTags_spec :
    serializeTags [] = "" ∧
    (∀ tags : List (String × String), serializeTags tags =
        commaJoin ((sortStrings (tags.map Prod.fst)).map (tagEntry tags))) ∧
    (∀ tags : List (String × String),
        List.Sorted strLe (sortStrings (tags.map Prod.fst))) ∧
    (∀ t1 t2 : List (String × String), t1.Perm t2 → (t1.map Prod.fst).Nodup →
        serializeTags t1 = serializeTags t2) :=
  ⟨rfl, serializeTags_eq_commaJoin,
   fun tags => List.sorted_insertionSort strLe (tags.map Prod.fst),
   fun _ _ h nd => serializeTags_perm_invariant h nd⟩

/-- C2 witness: the permutation-invariance part of `serializeTags_spec`
applied to a concrete two-entry mapping given in both insertion orders. -/
theorem serializeTags_spec_witness :
    ([("b", "2"), ("a", "1")] : List (String × String)).Perm [("a", "1"), ("b", "2")] ∧
    ((([("b", "2"), ("a", "1")] : List (String × String)).map Prod.fst).Nodup) ∧
    serializeTags [("b", "2"), ("a", "1")] = serializeTags [("a", "1"), ("b", "2")] :=
  ⟨List.Perm.swap ("a", "1") ("b", "2") [], by decide,
   serializeTags_spec.2.2.2 _ _ (List.Perm.swap ("a", "1") ("b", "2") []) (by decide)⟩

/-- C3: `Add` of an already-present element leaves a Set unchanged (both for
the `int` Set of `metrics.go` and the generic Set of the sibling file at
`string`); `SerializeValue` renders the distinct elements sorted ascending
by their natural value (integers numerically, strings lexicographically)
and only then hashes/renders each; for the string Set built from `"b"` then
`Add("a")` the output is the CRC-32 decimal values in the order of the
sorted original strings — which is NOT ascending hash order, since
`crc32("b") < crc32("a")`. -/
theorem set_dedup_and_sorted_serialization :
    (∀ (s : SetMetric) (n : Int), n ∈ s.values → s.Add (.int n) = .ok s) ∧
    (∀ (s : Part000.SetMetricString) (x : String), x ∈ s.values → s.Add x = s) ∧
    (∀ s : SetMetric, s.SerializeValue =
        concatAll ((sortInts s.values).map (fun el => ":" ++ ToString.toString el))) ∧
    (∀ s : SetMetric, List.Sorted (· ≤ ·) (sortInts s.values)) ∧
    (∀ s : Part000.SetMetricString, s.SerializeValue =
        concatAll ((sortStrings s.values).map
          (fun el => ":" ++ ToString.toString (setStringKeyToInt el)))) ∧
    (∀ s : Part000.SetMetricString, List.Sorted strLe (sortStrings s.values)) ∧
    ((Part000.NewSetMetricString "k" Second [] 0 "b").Add "a").SerializeValue
        = ":3904355907:1908338681" ∧
    setStringKeyToInt "a" = 3904355907 ∧ setStringKeyToInt "b" = 1908338681 ∧
    setStringKeyToInt "b" < setStringKeyToInt "a" := by
  refine ⟨?_, ?_, ?_, ?_, ?_, ?_, by decide, by decide, by decide, by decide⟩
  · intro s n h
    simp [SetMetric.Add, h]
  · intro s x h
    simp [Part000.SetMetricString.Add, h]
  · intro s
    show (sortInts s.values).foldl (fun sb el => sb ++ (":" ++ ToString.toString el)) "" = _
    rw [foldl_concat (fun el => ":" ++ ToString.toString el) (sortInts s.values) ""]
    rfl
  · intro s
    exact List.sorted_insertionSort (· ≤ ·) s.values
  · intro s
    show (sortStrings s.values).foldl
        (fun sb el => sb ++ (":" ++ ToString.toString (setStringKeyToInt el))) "" = _
    rw [foldl_concat (fun el => ":" ++ ToString.toString (setStringKeyToInt el))
      (sortStrings s.values) ""]
    rfl
  · intro s
    exact List.sorted_insertionSort strLe s.values

/-- C3 witness: the duplicate-insert parts of
`set_dedup_and_sorted_serialization` applied to concrete sets that already
contain the inserted element. -/
theorem set_dedup_and_sorted_serialization_witness :
    ((3 : Int) ∈ [(3 : Int), 5]) ∧
    SetMetric.Add ⟨[3, 5], am0⟩ (.int 3) = .ok ⟨[3, 5], am0⟩ ∧
    ("b" ∈ ["b", "a"]) ∧
    Part000.SetMetricString.Add ⟨["b", "a"], am0⟩ "b" = ⟨["b", "a"], am0⟩ :=
  ⟨by decide, set_dedup_and_sorted_serialization.1 ⟨[3, 5], am0⟩ 3 (by decide),
   by decide, set_dedup_and_sorted_serialization.2.1 ⟨["b", "a"], am0⟩ "b" (by decide)⟩

/-- C4 counterexample: the claim's cited sibling-file `CounterMetric` has
`SerializeValue` equal to `fmt.Sprintf("%v", c.value)` with NO leading
colon, so on the claim's own vector — a Counter constructed with `2.0`
after `Add(3.0)` and `Add(-1.5)` — it returns `"3.5"`, not the `":3.5"`
the claim asserts for every Counter. -/
theorem part000_counter_no_leading_colon :
    (((Part000.NewCounterMetric "k" Second [] 0 (mkRat 2 1)).Add (mkRat 3 1)).Add
        (mkRat (-3) 2)).SerializeValue = "3.5" ∧
    (((Part000.NewCounterMetric "k" Second [] 0 (mkRat 2 1)).Add (mkRat 3 1)).Add
        (mkRat (-3) 2)).SerializeValue ≠ ":3.5" := by
  refine ⟨by decide, by decide⟩

/-- C4 (amended): every Counter's `Add` accumulates a running sum of the
observed floats, rendered as the shortest round-trip decimal; but the
leading colon is produced by `SerializeValue` itself only in `metrics.go`,
whose Counter serializes the `2.0`, `Add(3.0)`, `Add(-1.5)` vector to
`":3.5"` — the sibling file's `CounterMetric.SerializeValue` emits the bare
rendering, giving `"3.5"` on the same vector. -/
theorem counter_running_sum :
    (∀ (c : CounterMetric) (v : float64),
        c.Add (.float v) = .ok { c with value := fadd c.value v }) ∧
    (∀ c : CounterMetric, c.SerializeValue = ":" ++ sprintfV c.value) ∧
    (((NewCounterMetric "k" Second [] 0 (mkRat 2 1)).Add (.float (mkRat 3 1))).bind
        (fun c => c.Add (.float (mkRat (-3) 2)))).map CounterMetric.SerializeValue
      = .ok ":3.5" ∧
    (∀ (c : Part000.CounterMetric) (v : float64),
        c.Add v = { c with value := fadd c.value v }) ∧
    (∀ c : Part000.CounterMetric, c.SerializeValue = sprintfV c.value) ∧
    (((Part000.NewCounterMetric "k" Second [] 0 (mkRat 2 1)).Add (mkRat 3 1)).Add
        (mkRat (-3) 2)).SerializeValue = "3.5" :=
  ⟨fun _ _ => rfl, fun _ => rfl, by decide, fun _ _ => rfl, fun _ => rfl, by decide⟩

/-- C5: `Add` on the Set of `metrics.go` with a value that is not an `int`
fails with the type-assertion error (the modelled
`*runtime.TypeAssertionError` panic of `value.(int)`), so the mismatched
value is never inserted, silently dropped or coerced, and the set state is
untouched. -/
theorem set_add_type_mismatch :
    ∀ (s : SetMetric) (v : GoValue), (∀ n : Int, v ≠ .int n) →
      s.Add v = .error .typeAssertion := by
  intro s v h
  cases v with
  | float q => rfl
  | int n => exact absurd rfl (h n)
  | str t => rfl

/-- C5 witness: `set_add_type_mismatch` applied to a concrete Set and a
string value. -/
theorem set_add_type_mismatch_witness :
    SetMetric.Add ⟨[3], am0⟩ (.str "route") = .error .typeAssertion :=
  set_add_type_mismatch ⟨[3], am0⟩ (.str "route") (fun _ h => GoValue.noConfusion h)

/-- C6 counterexample: the two `sanitizeValue` variants are NOT
extensionally equal.  On `"say hi!"` the `metrics.go` variant keeps the
space (its class contains `\s`) and deletes the `"!"` run, giving
`"say hi"`, while the sibling file's variant replaces both the space run
and the `"!"` run by underscores, giving `"say_hi_"`. -/
theorem sanitizeValue_variants_differ :
    sanitizeValue "say hi!" = "say hi" ∧
    Part000.sanitizeValue "say hi!" = "say_hi_" ∧
    sanitizeValue "say hi!" ≠ Part000.sanitizeValue "say hi!" := by
  refine ⟨by decide, by decide, by decide⟩

/-- C6 (amended): the two `sanitizeValue` variants are not extensionally
equal (they differ both in the replacement — deletion versus underscore —
and in whether whitespace is allowed); they agree exactly where no
replacement happens, in particular on every string whose characters all lie
in the sibling variant's allowed class, on which both act as the
identity. -/
theorem sanitizeValue_variants_agree_on_shared_class :
    ∀ s : String, s.data.all Part000.valueAllowed = true →
      sanitizeValue s = Part000.sanitizeValue s := by
  intro s h
  have hpart : ∀ c ∈ s.data, Part000.valueAllowed c = true := List.all_eq_true.mp h
  have hgo : ∀ c ∈ s.data, valueAllowed c = true := by
    intro c hc
    have hp := hpart c hc
    unfold Part000.valueAllowed at hp
    unfold valueAllowed
    simp only [Bool.or_eq_true] at hp ⊢
    tauto
  unfold sanitizeValue Part000.sanitizeValue replaceAllString
  rw [replaceDisallowedRuns_id valueAllowed _ s.data hgo false,
    replaceDisallowedRuns_id Part000.valueAllowed _ s.data hpart false]

/-- C6 witness: `sanitizeValue_variants_agree_on_shared_class` applied to a
concrete string inside the shared class. -/
theorem sanitizeValue_variants_agree_on_shared_class_witness :
    ("env:prod".data.all Part000.valueAllowed = true) ∧
    sanitizeValue "env:prod" = Part000.sanitizeValue "env:prod" :=
  ⟨by decide, sanitizeValue_variants_agree_on_shared_class "env:prod" (by decide)⟩

/-- C7: for every metric variant, every successful `Add` leaves the
identity read through `GetKey`, `GetUnit`, `GetTags` and `GetTimestamp`
unchanged — only the kind-specific value state mutates. -/
theorem add_preserves_identity :
    (∀ (c : CounterMetric) (v : GoValue) (c' : CounterMetric), c.Add v = .ok c' →
      c'.GetKey = c.GetKey ∧ c'.GetUnit = c.GetUnit ∧ c'.GetTags = c.GetTags ∧
        c'.GetTimestamp = c.GetTimestamp) ∧
    (∀ (g : GaugeMetric) (v : GoValue) (g' : GaugeMetric), g.Add v = .ok g' →
      g'.GetKey = g.GetKey ∧ g'.GetUnit = g.GetUnit ∧ g'.GetTags = g.GetTags ∧
        g'.GetTimestamp = g.GetTimestamp) ∧
    (∀ (d : DistributionMetric) (v : GoValue) (d' : DistributionMetric), d.Add v = .ok d' →
      d'.GetKey = d.GetKey ∧ d'.GetUnit = d.GetUnit ∧ d'.GetTags = d.GetTags ∧
        d'.GetTimestamp = d.GetTimestamp) ∧
    (∀ (s : SetMetric) (v : GoValue) (s' : SetMetric), s.Add v = .ok s' →
      s'.GetKey = s.GetKey ∧ s'.GetUnit = s.GetUnit ∧ s'.GetTags = s.GetTags ∧
        s'.GetTimestamp = s.GetTimestamp) := by
  refine ⟨?_, ?_, ?_, ?_⟩
  · intro c v c' h
    cases v with
    | float q =>
      simp only [CounterMetric.Add, Except.ok.injEq] at h
      subst h
      exact ⟨rfl, rfl, rfl, rfl⟩
    | int n => simp [CounterMetric.Add] at h
    | str t => simp [CounterMetric.Add] at h
  · intro g v g' h
    cases v with
    | float q =>
      simp only [GaugeMetric.Add, Except.ok.injEq] at h
      subst h
      exact ⟨rfl, rfl, rfl, rfl⟩
    | int n => simp [GaugeMetric.Add] at h
    | str t => simp [GaugeMetric.Add] at h
  · intro d v d' h
    cases v with
    | float q =>
      simp only [DistributionMetric.Add, Except.ok.injEq] at h
      subst h
      exact ⟨rfl, rfl, rfl, rfl⟩
    | int n => simp [DistributionMetric.Add] at h
    | str t => simp [DistributionMetric.Add] at h
  · intro s v s' h
    cases v with
    | float q => simp [SetMetric.Add] at h
    | int n =>
      simp only [SetMetric.Add, Except.ok.injEq] at h
      subst h
      by_cases hm : n ∈ s.values
      · rw [if_pos hm]
        exact ⟨rfl, rfl, rfl, rfl⟩
      · rw [if_neg hm]
        exact ⟨rfl, rfl, rfl, rfl⟩
    | str t => simp [SetMetric.Add] at h

/-- C7 witness: `add_preserves_identity` applied to one concrete `Add` per
variant. -/
theorem add_preserves_identity_witness :
    (CounterMetric.GetKey ⟨fadd (mkRat 2 1) (mkRat 3 1), am0⟩
        = CounterMetric.GetKey ⟨mkRat 2 1, am0⟩ ∧
      CounterMetric.GetUnit ⟨fadd (mkRat 2 1) (mkRat 3 1), am0⟩
        = CounterMetric.GetUnit ⟨mkRat 2 1, am0⟩ ∧
      CounterMetric.GetTags ⟨fadd (mkRat 2 1) (mkRat 3 1), am0⟩
        = CounterMetric.GetTags ⟨mkRat 2 1, am0⟩ ∧
      CounterMetric.GetTimestamp ⟨fadd (mkRat 2 1) (mkRat 3 1), am0⟩
        = CounterMetric.GetTimestamp ⟨mkRat 2 1, am0⟩) ∧
    (GaugeMetric.GetKey ⟨mkRat 1 1, mathMin (mkRat 5 1) (mkRat 1 1),
          mathMax (mkRat 5 1) (mkRat 1 1), fadd (mkRat 5 1) (mkRat 1 1),
          fadd (mkRat 5 1) (mkRat 1 1), am0⟩
        = GaugeMetric.GetKey ⟨mkRat 5 1, mkRat 5 1, mkRat 5 1, mkRat 5 1, mkRat 5 1, am0⟩ ∧
      GaugeMetric.GetUnit ⟨mkRat 1 1, mathMin (mkRat 5 1) (mkRat 1 1),
          mathMax (mkRat 5 1) (mkRat 1 1), fadd (mkRat 5 1) (mkRat 1 1),
          fadd (mkRat 5 1) (mkRat 1 1), am0⟩
        = GaugeMetric.GetUnit ⟨mkRat 5 1, mkRat 5 1, mkRat 5 1, mkRat 5 1, mkRat 5 1, am0⟩ ∧
      GaugeMetric.GetTags ⟨mkRat 1 1, mathMin (mkRat 5 1) (mkRat 1 1),
          mathMax (mkRat 5 1) (mkRat 1 1), fadd (mkRat 5 1) (mkRat 1 1),
          fadd (mkRat 5 1) (mkRat 1 1), am0⟩
        = GaugeMetric.GetTags ⟨mkRat 5 1, mkRat 5 1, mkRat 5 1, mkRat 5 1, mkRat 5 1, am0⟩ ∧
      GaugeMetric.GetTimestamp ⟨mkRat 1 1, mathMin (mkRat 5 1) (mkRat 1 1),
          mathMax (mkRat 5 1) (mkRat 1 1), fadd (mkRat 5 1) (mkRat 1 1),
          fadd (mkRat 5 1) (mkRat 1 1), am0⟩
        = GaugeMetric.GetTimestamp ⟨mkRat 5 1, mkRat 5 1, mkRat 5 1, mkRat 5 1, mkRat 5 1, am0⟩) ∧
    (DistributionMetric.GetKey ⟨[mkRat 1 1] ++ [mkRat 2 1], am0⟩
        = DistributionMetric.GetKey ⟨[mkRat 1 1], am0⟩ ∧
      DistributionMetric.GetUnit ⟨[mkRat 1 1] ++ [mkRat 2 1], am0⟩
        = DistributionMetric.GetUnit ⟨[mkRat 1 1], am0⟩ ∧
      DistributionMetric.GetTags ⟨[mkRat 1 1] ++ [mkRat 2 1], am0⟩
        = DistributionMetric.GetTags ⟨[mkRat 1 1], am0⟩ ∧
      DistributionMetric.GetTimestamp ⟨[mkRat 1 1] ++ [mkRat 2 1], am0⟩
        = DistributionMetric.GetTimestamp ⟨[mkRat 1 1], am0⟩) ∧
    (SetMetric.GetKey ⟨[3, 5], am0⟩ = SetMetric.GetKey ⟨[(3 : Int)], am0⟩ ∧
      SetMetric.GetUnit ⟨[3, 5], am0⟩ = SetMetric.GetUnit ⟨[(3 : Int)], am0⟩ ∧
      SetMetric.GetTags ⟨[3, 5], am0⟩ = SetMetric.GetTags ⟨[(3 : Int)], am0⟩ ∧
      SetMetric.GetTimestamp ⟨[3, 5], am0⟩ = SetMetric.GetTimestamp ⟨[(3 : Int)], am0⟩) :=
  ⟨add_preserves_identity.1 ⟨mkRat 2 1, am0⟩ (.float (mkRat 3 1)) _ rfl,
   add_preserves_identity.2.1 ⟨mkRat 5 1, mkRat 5 1, mkRat 5 1, mkRat 5 1, mkRat 5 1, am0⟩
     (.float (mkRat 1 1)) _ rfl,
   add_preserves_identity.2.2.1 ⟨[mkRat 1 1], am0⟩ (.float (mkRat 2 1)) _ rfl,
   add_preserves_identity.2.2.2 ⟨[(3 : Int)], am0⟩ (.int 5) ⟨[3, 5], am0⟩ (by decide)⟩

/-- C8: `sanitizeKey` and both `sanitizeValue` variants are idempotent:
every character of a sanitizer's output lies in its allowed class (the
underscore replacement is itself allowed), so a second pass changes
nothing. -/
theorem sanitizers_idempotent :
    ∀ s : String, sanitizeKey (sanitizeKey s) = sanitizeKey s ∧
      sanitizeValue (sanitizeValue s) = sanitizeValue s ∧
      Part000.sanitizeValue (Part000.sanitizeValue s) = Part000.sanitizeValue s :=
  fun s =>
    ⟨replaceAllString_idem keyAllowed "_" (by decide) s,
     replaceAllString_idem valueAllowed "" (by decide) s,
     replaceAllString_idem Part000.valueAllowed "_" (by decide) s⟩

/-- C9: `CustomUnit` strips exactly the characters outside `[a-z]` —
uppercase letters are removed, not case-folded (witness `"MilliSecond2!"`
becoming `"illiecond"`) — `toString`/`GetUnit` returns the stripped string
verbatim, and an input that strips to nothing yields the empty unit string
with no error. -/
theorem customUnit_strips_non_lowercase :
    (∀ u : String, (CustomUnit u).toString = String.mk (u.data.filter unitAllowed)) ∧
    (CustomUnit "MilliSecond2!").toString = "illiecond" ∧
    (CustomUnit "QW9$").toString = "" := by
  refine ⟨fun u => ?_, by decide, by decide⟩
  show replaceAllString unitAllowed "" u = _
  unfold replaceAllString
  exact congrArg String.mk (replaceDisallowedRuns_nil_rep unitAllowed u.data false)

/-- C10: on a well-typed `float64` argument, `Add` on Counter, Gauge and
Distribution always succeeds — the type-assertion failure branch is
unreachable, so accumulation is total on well-typed inputs. -/
theorem add_total_on_floats :
    ∀ v : float64,
      (∀ c : CounterMetric, (c.Add (.float v)).isOk = true) ∧
      (∀ g : GaugeMetric, (g.Add (.float v)).isOk = true) ∧
      (∀ d : DistributionMetric, (d.Add (.float v)).isOk = true) :=
  fun _ => ⟨fun _ => rfl, fun _ => rfl, fun _ => rfl⟩
